import Mathlib

/-
Verification of the geospatial hazard visualization and filtering engine of
the ocean-hazard admin portal (src/components/InteractiveMapDashboard.tsx).

Embedding conventions:
* JS strings are modelled as lists of characters (Str).
* JS numbers holding Unix-ms timestamps are modelled as Int; coordinates and
  grid arithmetic are modelled over the rationals (exact versions of the
  floating-point values used by the source; the claims proved here depend
  only on order and field structure, which the rationals share with floats).
* The timestamp field of a report stores the result of JS Date parsing:
  some t for a string parsing to the instant t (in ms), none for an
  unparseable string (for which getTime() yields NaN).  Comparisons against
  NaN are false in JS; the jsLt and jsGt helpers encode this.
* Optional fields are Option; the JS truthiness tests that the source
  performs on numbers (0 and undefined are falsy) and strings (the empty
  string and undefined are falsy) are modelled explicitly.
* The Map keys built by the source as template strings (gx ++ ":" ++ gy) are
  modelled as the pair (gx, gy); the string construction is injective in the
  pair, so map behavior is identical.
-/

namespace OceanMap

abbrev Str := List Char

inductive HazardStatus where
  | unverified
  | under_review
  | verified
  | false_alarm
deriving DecidableEq, Repr

inductive HazardSource where
  | citizen
  | sensor
  | social
  | official
  | other
deriving DecidableEq, Repr

/-- HazardReport from the source, with the timestamp field holding the JS
Date parse result of the ISO string (none models an unparseable string). -/
structure HazardReport where
  id : Str
  lat : ℚ
  lng : ℚ
  type : Str
  status : HazardStatus
  source : HazardSource
  timestamp : Option Int
  description : Option Str := none
  mediaUrls : Option (List Str) := none
  title : Option Str := none
  tags : Option (List Str) := none
  personName : Option Str := none
  locationName : Option Str := none
deriving DecidableEq, Repr

/-- ActiveFilters from the source.  hazardType is an open string whose
sentinel is the literal string all; status and source are closed unions
modelled with none standing for the all sentinel; timeStart and timeEnd are
optional Unix-ms instants (undefined modelled as none). -/
structure ActiveFilters where
  hazardType : Str
  status : Option HazardStatus
  source : Option HazardSource
  timeStart : Option Int := none
  timeEnd : Option Int := none
  heatmap : Bool
  clustering : Bool
  tagsQuery : Str := []
deriving DecidableEq, Repr

def strAll : Str := "all".toList

/-- JS comparison t0 < b where t0 is a parse result: NaN < b is false. -/
def jsLt : Option Int → Int → Bool
  | none, _ => false
  | some t, b => decide (t < b)

/-- JS comparison t0 > b where t0 is a parse result: NaN > b is false. -/
def jsGt : Option Int → Int → Bool
  | none, _ => false
  | some t, b => decide (t > b)

/-- Source line: if (filters.timeStart && t0 < filters.timeStart) return false.
The bound is truthy only when defined and nonzero. -/
def timeLowerFails : Option Int → Option Int → Bool
  | some b, t0 => decide (b ≠ 0) && jsLt t0 b
  | none, _ => false

/-- Source line: if (filters.timeEnd && t0 > filters.timeEnd) return false. -/
def timeUpperFails : Option Int → Option Int → Bool
  | some b, t0 => decide (b ≠ 0) && jsGt t0 b
  | none, _ => false

/-- Source line: if (timeline != null && t0 > timeline) return false.
Note this test uses a null check, not truthiness: a cursor of 0 applies. -/
def cursorFails : Option Int → Option Int → Bool
  | some tl, t0 => jsGt t0 tl
  | none, _ => false

/-- Separator class of the split regex on commas and whitespace. -/
def isSepChar (c : Char) : Bool := c = ',' || c.isWhitespace

/-- Splitting a character list at separator characters, keeping empty
pieces (the subsequent filter drops them, as filter(Boolean) does). -/
def splitSeps : Str → List Str
  | [] => [[]]
  | c :: t =>
    if isSepChar c then [] :: splitSeps t
    else
      match splitSeps t with
      | [] => [[c]]
      | h :: t2 => (c :: h) :: t2

def lowerStr (s : Str) : Str := s.map Char.toLower

/-- Source: query.toLowerCase().split on commas and whitespace, then
filter(Boolean), which drops empty tokens. -/
def tokensOf (q : Str) : List Str := (splitSeps (lowerStr q)).filter (fun p => p ≠ [])

/-- JS String.prototype.trim: whitespace removed from both ends. -/
def jsTrim (s : Str) : Str :=
  ((s.dropWhile Char.isWhitespace).reverse.dropWhile Char.isWhitespace).reverse

/-- Lowercased tag list of a report; missing tags default to the empty list
(source: (r.tags ?? []).map(x => x.toLowerCase())). -/
def lowerTags (r : HazardReport) : List Str := (r.tags.getD []).map lowerStr

/-- Tag branch of the source filter: guarded by truthiness of tagsQuery and
a positive trimmed length, then an every/includes test over the tokens. -/
def tagPass (q : Str) (r : HazardReport) : Bool :=
  if q ≠ [] ∧ (jsTrim q).length > 0 then
    let needles := tokensOf q
    if needles.length ≠ 0 then needles.all (fun n => (lowerTags r).contains n)
    else true
  else true

/-- The filter predicate of filteredReports, one branch per early return of
the source, in source order. -/
def reportMatches (f : ActiveFilters) (timeline : Option Int) (r : HazardReport) : Bool :=
  if f.hazardType ≠ strAll ∧ r.type ≠ f.hazardType then false
  else if (match f.status with | some s => decide (r.status ≠ s) | none => false : Bool) then false
  else if (match f.source with | some s => decide (r.source ≠ s) | none => false : Bool) then false
  else if timeLowerFails f.timeStart r.timestamp then false
  else if timeUpperFails f.timeEnd r.timestamp then false
  else if cursorFails timeline r.timestamp then false
  else tagPass f.tagsQuery r

/-- The Filter Evaluator: reports.filter of the source predicate. -/
def filteredReports (f : ActiveFilters) (timeline : Option Int)
    (rs : List HazardReport) : List HazardReport :=
  rs.filter (reportMatches f timeline)

/-- One loop iteration of the Temporal Domain Calculator: non-finite parse
results are skipped; otherwise running min and max are updated.  The
accumulator components start as none, standing for Infinity and -Infinity. -/
def domainFold (acc : Option Int × Option Int) (r : HazardReport) : Option Int × Option Int :=
  match r.timestamp with
  | none => acc
  | some t =>
    ((match acc.1 with | none => some t | some m => if t < m then some t else some m),
     (match acc.2 with | none => some t | some m => if t > m then some t else some m))

/-- timeDomain of the source: null for an empty store, null when no
timestamp parses, otherwise the min and max over the parseable instants. -/
def timeDomain (rs : List HazardReport) : Option (Int × Int) :=
  if rs.length = 0 then none
  else
    match rs.foldl domainFold (none, none) with
    | (some mn, some mx) => some (mn, mx)
    | _ => none

/-- The all-default FilterState as initialized by the dashboard for a
non-empty domain: the all sentinels, the domain bounds, component defaults
for the toggles, and an empty tag query. -/
def defaultFilterState (mn mx : Int) : ActiveFilters :=
  { hazardType := strAll, status := none, source := none,
    timeStart := some mn, timeEnd := some mx,
    heatmap := false, clustering := true, tagsQuery := [] }

/- ---------------- Spatial bucketing: heatmap variant ---------------- -/

def heatGridSize : ℚ := 0.25

def heatKey (r : HazardReport) : Int × Int :=
  (⌊r.lng / heatGridSize⌋, ⌊r.lat / heatGridSize⌋)

/-- Cell center used by both bucketing passes: (g + 0.5) * cellSize,
returned as the (lng, lat) pair. -/
def cellCenter (g : Int × Int) (size : ℚ) : ℚ × ℚ :=
  (((g.1 : ℚ) + 0.5) * size, ((g.2 : ℚ) + 0.5) * size)

structure HeatBucket where
  lat : ℚ
  lng : ℚ
  count : Nat
deriving DecidableEq, Repr

/-- Map insertion of the heat loop body: increment the count of an existing
cell, or append a fresh cell with count 1 at the cell center. -/
def heatInsert (k : Int × Int) (c : ℚ × ℚ) :
    List ((Int × Int) × HeatBucket) → List ((Int × Int) × HeatBucket)
  | [] => [(k, ⟨c.2, c.1, 1⟩)]
  | (k2, b) :: t =>
    if k2 = k then (k2, { b with count := b.count + 1 }) :: t
    else (k2, b) :: heatInsert k c t

def heatBuckets (rs : List HazardReport) : List ((Int × Int) × HeatBucket) :=
  rs.foldl (fun m r => heatInsert (heatKey r) (cellCenter (heatKey r) heatGridSize) m) []

/-- let max = 0; for (const b of buckets.values()) max = Math.max(max, b.count). -/
def maxBucketCount (bs : List ((Int × Int) × HeatBucket)) : Nat :=
  bs.foldl (fun m kb => max m kb.2.count) 0

structure HeatPoint where
  lat : ℚ
  lng : ℚ
  weight : ℚ
deriving DecidableEq, Repr

/-- heatPoints of the source: empty when the heatmap toggle is off, empty
when no cell exists, otherwise one point per cell with weight count / max. -/
def heatPoints (hm : Bool) (rs : List HazardReport) : List HeatPoint :=
  if hm = false then []
  else
    let bs := heatBuckets rs
    let mx := maxBucketCount bs
    if mx = 0 then []
    else bs.map (fun kb => ⟨kb.2.lat, kb.2.lng, (kb.2.count : ℚ) / (mx : ℚ)⟩)

/- ---------------- Spatial bucketing: cluster variant ---------------- -/

def clusterGridSize : ℚ := 0.06

def clusterKey (r : HazardReport) : Int × Int :=
  (⌊r.lng / clusterGridSize⌋, ⌊r.lat / clusterGridSize⌋)

structure ClusterBucket where
  lat : ℚ
  lng : ℚ
  items : List HazardReport
deriving DecidableEq, Repr

/-- Map insertion of the cluster loop body: push onto an existing cell
membership list, or append a fresh cell holding the single report. -/
def clusterInsert (k : Int × Int) (c : ℚ × ℚ) (r : HazardReport) :
    List ((Int × Int) × ClusterBucket) → List ((Int × Int) × ClusterBucket)
  | [] => [(k, ⟨c.2, c.1, [r]⟩)]
  | (k2, b) :: t =>
    if k2 = k then (k2, { b with items := b.items ++ [r] }) :: t
    else (k2, b) :: clusterInsert k c r t

def clusterBuckets (rs : List HazardReport) : List ((Int × Int) × ClusterBucket) :=
  rs.foldl (fun m r => clusterInsert (clusterKey r) (cellCenter (clusterKey r) clusterGridSize) r m) []

/-- Marker contribution of a cell: an individual marker for a singleton
membership, a cluster badge showing the member count otherwise. -/
def markerCount (b : ClusterBucket) : Nat :=
  if b.items.length = 1 then 1 else b.items.length

/-- Number of members of a given status, as accumulated by the counts
record of dominantStatusIn. -/
def statusCount (items : List HazardReport) (s : HazardStatus) : Nat :=
  (items.filter (fun r => decide (r.status = s))).length

/-- dominantStatusIn of the source: Object.keys enumeration order is the
insertion order unverified, under_review, verified, false_alarm, and the
reduce keeps the earlier key on ties (counts[a] >= counts[b] keeps a). -/
def dominantStatusIn (items : List HazardReport) : HazardStatus :=
  [HazardStatus.under_review, HazardStatus.verified, HazardStatus.false_alarm].foldl
    (fun a b => if statusCount items a ≥ statusCount items b then a else b)
    HazardStatus.unverified

/-- Position of a status in the fixed enumeration order. -/
def statusIdx : HazardStatus → Nat
  | .unverified => 0
  | .under_review => 1
  | .verified => 2
  | .false_alarm => 3

/- ---------------- CSV export ---------------- -/

def statusStr : HazardStatus → Str
  | .unverified => "unverified".toList
  | .under_review => "under_review".toList
  | .verified => "verified".toList
  | .false_alarm => "false_alarm".toList

def sourceStr : HazardSource → Str
  | .citizen => "citizen".toList
  | .sensor => "sensor".toList
  | .social => "social".toList
  | .official => "official".toList
  | .other => "other".toList

/-- safe of the source: v ?? "". -/
def safe : Option Str → Str
  | none => []
  | some s => s

/-- Rendering of a JS number for a CSV cell; the exact digits are abstracted
as the decimal rendering of the rational. -/
def ratStr (q : ℚ) : Str := (toString q).toList

/-- Abstract rendering of the ISO timestamp text for a valid instant. -/
def isoStr (t : Int) : Str := (toString t).toList

/-- Date.prototype.toISOString: throws a RangeError when the time value is
NaN (unparseable timestamp), otherwise yields the ISO text. -/
def toISOStringE : Option Int → Except Unit Str
  | none => .error ()
  | some t => .ok (isoStr t)

/-- (r.tags ?? []).join with a pipe. -/
def pipeJoin (l : List Str) : Str := (l.intersperse "|".toList).flatten

def csvHeaders : List Str :=
  ["id", "title", "type", "status", "source", "timestamp", "lat", "lng",
   "locationName", "personName", "tags", "description"].map String.toList

/-- The cell list of one CSV row, in source order; building it evaluates
toISOString, so it can throw. -/
def csvFields (r : HazardReport) : Except Unit (List Str) :=
  match toISOStringE r.timestamp with
  | .error e => .error e
  | .ok iso =>
    .ok [r.id, safe r.title, r.type, statusStr r.status, sourceStr r.source, iso,
         ratStr r.lat, ratStr r.lng, safe r.locationName, safe r.personName,
         pipeJoin (r.tags.getD []), safe r.description]

/-- filteredReports.map(r => [...]): the map stops with the exception of the
first offending report, if any. -/
def csvRows : List HazardReport → Except Unit (List (List Str))
  | [] => .ok []
  | r :: t =>
    match csvFields r with
    | .error e => .error e
    | .ok row =>
      match csvRows t with
      | .error e => .error e
      | .ok rows => .ok (row :: rows)

/-- csvEscape of the source: quote a cell containing a comma, newline or
double quote, doubling internal double quotes. -/
def csvEscape (s : Str) : Str :=
  if s.contains ',' || s.contains '\n' || s.contains '\"' then
    '\"' :: (s.flatMap fun c => if c = '\"' then ['\"', '\"'] else [c]) ++ ['\"']
  else s

def joinComma (cells : List Str) : Str := (cells.intersperse ",".toList).flatten

def joinNl (lines : List Str) : Str := (lines.intersperse "\n".toList).flatten

/-- exportCSV of the source, applied to the already filtered sequence: the
header row joined with commas, then one escaped row per report. -/
def exportCSV (filtered : List HazardReport) : Except Unit Str :=
  match csvRows filtered with
  | .error e => .error e
  | .ok rows =>
    .ok (joinNl (joinComma csvHeaders :: rows.map (fun row => joinComma (row.map csvEscape))))

/- ---------------- Timeline replay scheduler ---------------- -/

/-- Cursor plus Playing flag of the replay state machine. -/
structure ReplayState where
  cursor : Int
  playing : Bool
deriving DecidableEq, Repr

/-- Fixed step of the play loop: max(1, floor((domainMax - domainMin) / 120)).
For a valid domain the difference is nonnegative, so integer division
coincides with Math.floor. -/
def replayStep (mn mx : Int) : Int := max 1 ((mx - mn) / 120)

/-- One 250 ms tick of the play loop.  The interval is only installed while
playing (and the cursor is non-null for a non-empty domain, so the
prev == null branch of the source updater is unreachable); advancing to or
past domainMax clamps to domainMax and stops playback. -/
def replayTick (mn mx : Int) (s : ReplayState) : ReplayState :=
  if s.playing = false then s
  else
    let next := s.cursor + replayStep mn mx
    if next ≥ mx then { cursor := mx, playing := false }
    else { cursor := next, playing := true }

/- ---------------- Fixtures used in concrete theorems ---------------- -/

/-- A report whose timestamp string does not parse (getTime is NaN). -/
def rNoTs : HazardReport :=
  { id := "r1".toList, lat := 0, lng := 0, type := "flood".toList,
    status := .unverified, source := .citizen, timestamp := none }

/-- A report whose timestamp parses to the instant 1000 ms. -/
def rGoodTs : HazardReport :=
  { id := "r2".toList, lat := 10, lng := 10, type := "flood".toList,
    status := .verified, source := .sensor, timestamp := some 1000 }

/-- A filter state with a lower time bound set (timeStart = 5 ms) and no
other constraint. -/
def fC1 : ActiveFilters :=
  { hazardType := strAll, status := none, source := none, timeStart := some 5,
    heatmap := false, clustering := true }

def rT5 : HazardReport :=
  { id := "a".toList, lat := 0, lng := 0, type := "flood".toList,
    status := .unverified, source := .citizen, timestamp := some 5 }

def rT10 : HazardReport :=
  { id := "b".toList, lat := 0, lng := 0, type := "surge".toList,
    status := .under_review, source := .social, timestamp := some 10 }

def rUR : HazardReport :=
  { id := "u".toList, lat := 0, lng := 0, type := "flood".toList,
    status := .under_review, source := .citizen, timestamp := some 1 }

def rV : HazardReport :=
  { id := "v".toList, lat := 0, lng := 0, type := "flood".toList,
    status := .verified, source := .citizen, timestamp := some 2 }

/-- A cluster membership list with a tie (one under_review, one verified). -/
def itemsC6 : List HazardReport := [rUR, rV]

/-- A filter state with no constraint other than the tag query under test. -/
def fTag : ActiveFilters :=
  { hazardType := strAll, status := none, source := none,
    heatmap := false, clustering := true }

def rTagged : HazardReport :=
  { id := "t".toList, lat := 0, lng := 0, type := "flood".toList,
    status := .unverified, source := .citizen, timestamp := some 1,
    tags := some ["flood".toList, "coast".toList] }

/-- Number of filtered reports falling in the heat cell k. -/
def keyCount (rs : List HazardReport) (k : Int × Int) : Nat :=
  (rs.filter (fun r => decide (heatKey r = k))).length

/-- Modelled from the spec: the twelve CSV cells of one report, in the fixed
column order id, title, type, status, source, timestamp(ISO), lat, lng,
locationName, personName, tags(pipe-joined), description.  Intended for
reports whose timestamp parses; the getD default is never reached then. -/
def csvRowOf (r : HazardReport) : List Str :=
  [r.id, safe r.title, r.type, statusStr r.status, sourceStr r.source,
   isoStr (r.timestamp.getD 0), ratStr r.lat, ratStr r.lng,
   safe r.locationName, safe r.personName, pipeJoin (r.tags.getD []),
   safe r.description]

/-- A filtered report with a parseable timestamp and a description that
needs RFC-4180 quoting. -/
def rCsv : HazardReport :=
  { id := "c1".toList, lat := 0, lng := 0, type := "flood".toList,
    status := .unverified, source := .citizen, timestamp := some 1000,
    description := some ("He said \"flood now\"").toList }

/- ---------------- General lemmas about the embedding ---------------- -/

lemma timeLowerFails_none_ts (b : Option Int) : timeLowerFails b none = false := by
  cases b <;> simp [timeLowerFails, jsLt]

lemma timeUpperFails_none_ts (b : Option Int) : timeUpperFails b none = false := by
  cases b <;> simp [timeUpperFails, jsGt]

lemma cursorFails_none_ts (tl : Option Int) : cursorFails tl none = false := by
  cases tl <;> simp [cursorFails, jsGt]

lemma timeLowerFails_zero (t0 : Option Int) : timeLowerFails (some 0) t0 = false := by
  simp [timeLowerFails]

lemma timeUpperFails_zero (t0 : Option Int) : timeUpperFails (some 0) t0 = false := by
  simp [timeUpperFails]

lemma timeLowerFails_none_bound (t0 : Option Int) : timeLowerFails none t0 = false := rfl

lemma timeUpperFails_none_bound (t0 : Option Int) : timeUpperFails none t0 = false := rfl

lemma cursorFails_none_cursor (t0 : Option Int) : cursorFails none t0 = false := rfl

lemma foldl_domain_bounds (rs : List HazardReport) :
    ∀ (acc : Option Int × Option Int) (mn mx : Int),
      rs.foldl domainFold acc = (some mn, some mx) →
      (∀ r ∈ rs, ∀ t, r.timestamp = some t → mn ≤ t ∧ t ≤ mx)
      ∧ (∀ a, acc.1 = some a → mn ≤ a)
      ∧ (∀ a, acc.2 = some a → a ≤ mx) := by
  induction rs with
  | nil =>
    intro acc mn mx h
    simp only [List.foldl_nil] at h
    subst h
    refine ⟨by simp, ?_, ?_⟩
    · intro a ha
      simp only [Option.some.injEq] at ha
      omega
    · intro a ha
      simp only [Option.some.injEq] at ha
      omega
  | cons r rs ih =>
    intro acc mn mx h
    simp only [List.foldl_cons] at h
    obtain ⟨hmem, hmin, hmax⟩ := ih (domainFold acc r) mn mx h
    have hminT : ∀ t, r.timestamp = some t → mn ≤ t := by
      intro t ht
      rcases hacc1 : acc.1 with _ | a
      · have h1 := hmin
        simp only [domainFold, ht, hacc1] at h1
        exact h1 t rfl
      · have h1 := hmin
        simp only [domainFold, ht, hacc1] at h1
        by_cases hlt : t < a
        · exact h1 t (by rw [if_pos hlt])
        · have := h1 a (by rw [if_neg hlt])
          omega
    have hmaxT : ∀ t, r.timestamp = some t → t ≤ mx := by
      intro t ht
      rcases hacc2 : acc.2 with _ | a
      · have h2 := hmax
        simp only [domainFold, ht, hacc2] at h2
        exact h2 t rfl
      · have h2 := hmax
        simp only [domainFold, ht, hacc2] at h2
        by_cases hgt : t > a
        · exact h2 t (by rw [if_pos hgt])
        · have := h2 a (by rw [if_neg hgt])
          omega
    refine ⟨?_, ?_, ?_⟩
    · intro r2 hr2 t ht
      rcases List.mem_cons.mp hr2 with hr2 | hr2
      · subst hr2
        exact ⟨hminT t ht, hmaxT t ht⟩
      · exact hmem r2 hr2 t ht
    · intro a ha
      cases ht : r.timestamp with
      | none =>
        have h1 := hmin
        simp only [domainFold, ht] at h1
        exact h1 a ha
      | some t =>
        have h1 := hmin
        simp only [domainFold, ht, ha] at h1
        by_cases hlt : t < a
        · have := h1 t (by rw [if_pos hlt])
          omega
        · exact h1 a (by rw [if_neg hlt])
    · intro a ha
      cases ht : r.timestamp with
      | none =>
        have h2 := hmax
        simp only [domainFold, ht] at h2
        exact h2 a ha
      | some t =>
        have h2 := hmax
        simp only [domainFold, ht, ha] at h2
        by_cases hgt : t > a
        · have := h2 t (by rw [if_pos hgt])
          omega
        · exact h2 a (by rw [if_neg hgt])

lemma timeDomain_bounds (rs : List HazardReport) (mn mx : Int)
    (h : timeDomain rs = some (mn, mx)) :
    ∀ r ∈ rs, ∀ t, r.timestamp = some t → mn ≤ t ∧ t ≤ mx := by
  unfold timeDomain at h
  by_cases h0 : rs.length = 0
  · rw [if_pos h0] at h
    exact absurd h (by simp)
  · rw [if_neg h0] at h
    rcases hfl : rs.foldl domainFold (none, none) with ⟨o1, o2⟩
    rw [hfl] at h
    cases o1 with
    | none => simp at h
    | some a =>
      cases o2 with
      | none => simp at h
      | some b =>
        simp only [Option.some.injEq, Prod.mk.injEq] at h
        obtain ⟨h1, h2⟩ := h
        subst h1
        subst h2
        exact (foldl_domain_bounds rs (none, none) a b hfl).1

/- ---------------- Claim theorems ---------------- -/

/-- Claim C1, counterexample: a report with an unparseable timestamp is NOT
excluded when timeStart is set.  In the source, getTime() yields NaN for
such a report and both NaN < timeStart and NaN > timeEnd are false, so no
time branch rejects it: the report is returned by the evaluator. -/
theorem c1_unparseable_excluded_cex :
    filteredReports fC1 none [rNoTs] = [rNoTs] := by rfl

/-- Claim C1 (amended): a report with an unparseable timestamp is never
excluded by the time-range or cursor rules, whether or not bounds are set;
the evaluator treats it exactly as if no time bounds and no cursor were
present. -/
theorem c1_unparseable_included (f : ActiveFilters) (tl : Option Int)
    (r : HazardReport) (h : r.timestamp = none) :
    reportMatches f tl r
      = reportMatches { f with timeStart := none, timeEnd := none } none r := by
  simp [reportMatches, h, timeLowerFails_none_ts, timeUpperFails_none_ts,
    cursorFails_none_ts, timeLowerFails_none_bound, timeUpperFails_none_bound,
    cursorFails_none_cursor]

theorem c1_unparseable_included_witness :
    reportMatches fC1 none rNoTs
      = reportMatches { fC1 with timeStart := none, timeEnd := none } none rNoTs :=
  c1_unparseable_included fC1 none rNoTs rfl

/-- Claim C2: the Temporal Domain Calculator silently skips the unparseable
timestamp and the Filter Evaluator passes the report through, but the CSV
export then throws: toISOString raises a RangeError on an invalid date, so
the export does not produce one row per filtered report. -/
theorem c2_export_throws_on_unparseable :
    timeDomain [rNoTs, rGoodTs] = some (1000, 1000)
    ∧ filteredReports (defaultFilterState 1000 1000) (some 1000) [rNoTs, rGoodTs]
        = [rNoTs, rGoodTs]
    ∧ exportCSV [rNoTs, rGoodTs] = Except.error () :=
  ⟨rfl, rfl, rfl⟩

/-- Claim C3: while Playing, a tick advances the cursor by exactly
max(1, floor((domainMax - domainMin) / 120)); the cursor never decreases;
the tick whose advanced value meets or exceeds domainMax sets the cursor to
exactly domainMax and stops playback; and a stopped scheduler does not move
(no looping). -/
theorem c3_replay_tick (mn mx : Int) (s : ReplayState)
    (hd : mn ≤ mx) (hp : s.playing = true) (hc : s.cursor ≤ mx) :
    replayStep mn mx = max 1 ((mx - mn) / 120)
    ∧ (s.cursor + replayStep mn mx < mx →
        replayTick mn mx s = ⟨s.cursor + replayStep mn mx, true⟩)
    ∧ (s.cursor + replayStep mn mx ≥ mx →
        replayTick mn mx s = ⟨mx, false⟩)
    ∧ s.cursor ≤ (replayTick mn mx s).cursor
    ∧ (∀ s2 : ReplayState, s2.playing = false → replayTick mn mx s2 = s2) := by
  have hstep : 1 ≤ replayStep mn mx := le_max_left 1 _
  refine ⟨rfl, ?_, ?_, ?_, ?_⟩
  · intro h
    simp [replayTick, hp, if_neg (not_le.mpr h)]
  · intro h
    simp [replayTick, hp, if_pos h]
  · simp only [replayTick, hp]
    split
    · simp
    · split
      · exact hc
      · simp
        omega
  · intro s2 h2
    simp [replayTick, h2]

theorem c3_replay_tick_witness :
    replayTick 0 1000 ⟨995, true⟩ = ⟨1000, false⟩ :=
  (c3_replay_tick 0 1000 ⟨995, true⟩ (by decide) rfl (by decide)).2.2.1 (by decide)

/-- Claim C4: the all-default filter state (all sentinels, time bounds at
the domain min and max, empty tag query) with the cursor at domainMax is the
identity on the report sequence: the evaluator returns the input list
itself, order and content untouched. -/
theorem c4_default_identity (rs : List HazardReport) (mn mx : Int)
    (h : timeDomain rs = some (mn, mx)) :
    filteredReports (defaultFilterState mn mx) (some mx) rs = rs := by
  have hb := timeDomain_bounds rs mn mx h
  unfold filteredReports
  rw [List.filter_eq_self]
  intro r hr
  cases ht : r.timestamp with
  | none =>
    simp [reportMatches, defaultFilterState, ht, timeLowerFails_none_ts,
      timeUpperFails_none_ts, cursorFails_none_ts, tagPass]
  | some t =>
    obtain ⟨h1, h2⟩ := hb r hr t ht
    have hl : jsLt (some t) mn = false := by
      simp [jsLt]
      omega
    have hg : jsGt (some t) mx = false := by
      simp [jsGt]
      omega
    simp [reportMatches, defaultFilterState, ht, timeLowerFails,
      timeUpperFails, cursorFails, hl, hg, tagPass]

theorem c4_default_identity_witness :
    filteredReports (defaultFilterState 5 10) (some 10) [rT5, rT10] = [rT5, rT10] :=
  c4_default_identity [rT5, rT10] 5 10 rfl

/-- Claim C10: a time bound equal to 0 (the Unix epoch, a falsy number) is
treated as an absent bound: the corresponding comparison is skipped
entirely, so the evaluator behaves exactly as with no bound, and the
zero-bound time checks never reject any report (in particular reports with
negative, pre-epoch timestamps pass the lower-bound rule). -/
theorem c10_zero_time_bound (f : ActiveFilters) (tl : Option Int) (r : HazardReport) :
    reportMatches { f with timeStart := some 0 } tl r
      = reportMatches { f with timeStart := none } tl r
    ∧ reportMatches { f with timeEnd := some 0 } tl r
      = reportMatches { f with timeEnd := none } tl r
    ∧ (∀ t0 : Option Int, timeLowerFails (some 0) t0 = false
        ∧ timeUpperFails (some 0) t0 = false) := by
  refine ⟨?_, ?_, fun t0 => ⟨timeLowerFails_zero t0, timeUpperFails_zero t0⟩⟩
  · simp [reportMatches, timeLowerFails_zero, timeLowerFails_none_bound]
  · simp [reportMatches, timeUpperFails_zero, timeUpperFails_none_bound]

/-- Claim C6: for a non-empty cluster membership list, dominantStatusIn
returns a status of maximal member count, and among the statuses attaining
that count it is the first one in the fixed enumeration order unverified,
under_review, verified, false_alarm. -/
theorem c6_dominant_status (items : List HazardReport) (hne : items ≠ []) :
    (∀ s, statusCount items s ≤ statusCount items (dominantStatusIn items))
    ∧ (∀ s, statusCount items s = statusCount items (dominantStatusIn items) →
        statusIdx (dominantStatusIn items) ≤ statusIdx s) := by
  unfold dominantStatusIn
  simp only [List.foldl_cons, List.foldl_nil]
  refine ⟨?_, ?_⟩
  · intro s
    cases s <;> split_ifs <;> omega
  · intro s
    cases s <;> split_ifs <;>
      (intro h; simp only [statusIdx] at *; omega)

lemma toLower_of_isWhitespace {c : Char} (h : c.isWhitespace = true) :
    c.toLower = c := by
  simp only [Char.isWhitespace, Bool.or_eq_true, decide_eq_true_eq] at h
  rcases h with ((h | h) | h) | h <;> subst h <;> decide

lemma isSepChar_of_isWhitespace {c : Char} (h : c.isWhitespace = true) :
    isSepChar c = true := by
  simp [isSepChar, h]

lemma splitSeps_all_sep {cs : Str} (h : ∀ c ∈ cs, isSepChar c = true) :
    ∀ p ∈ splitSeps cs, p = [] := by
  induction cs with
  | nil =>
    intro p hp
    simp only [splitSeps, List.mem_singleton] at hp
    exact hp
  | cons c t ih =>
    intro p hp
    have hc : isSepChar c = true := h c (List.mem_cons_self c t)
    rw [splitSeps, if_pos hc] at hp
    rcases List.mem_cons.mp hp with hp | hp
    · exact hp
    · exact ih (fun c2 hc2 => h c2 (List.mem_cons_of_mem c hc2)) p hp

lemma tokensOf_eq_nil_of_ws {q : Str} (h : ∀ c ∈ q, c.isWhitespace = true) :
    tokensOf q = [] := by
  unfold tokensOf
  rw [List.filter_eq_nil_iff]
  intro p hp
  have hall : ∀ c ∈ lowerStr q, isSepChar c = true := by
    intro c hc
    obtain ⟨c0, hc0, rfl⟩ := List.mem_map.mp hc
    have hw := h c0 hc0
    rw [toLower_of_isWhitespace hw]
    exact isSepChar_of_isWhitespace hw
  have := splitSeps_all_sep hall p hp
  simp [this]

lemma jsTrim_nil_all_ws {s : Str} (h : jsTrim s = []) :
    ∀ c ∈ s, c.isWhitespace = true := by
  unfold jsTrim at h
  rw [List.reverse_eq_nil_iff, List.dropWhile_eq_nil_iff] at h
  have hdrop : ∀ c ∈ s.dropWhile Char.isWhitespace, c.isWhitespace = true := by
    intro c hc
    exact h c (List.mem_reverse.mpr hc)
  intro c hc
  rw [← List.takeWhile_append_dropWhile (p := Char.isWhitespace) (l := s)] at hc
  rcases List.mem_append.mp hc with hc | hc
  · exact List.mem_takeWhile_imp hc
  · exact hdrop c hc

lemma tagPass_iff (q : Str) (r : HazardReport) :
    tagPass q r = true ↔ ∀ tok ∈ tokensOf q, tok ∈ lowerTags r := by
  simp only [tagPass]
  split_ifs with hg hn
  · rw [List.all_eq_true]
    constructor
    · intro hall tok htok
      exact List.elem_iff.mp (hall tok htok)
    · intro hall tok htok
      exact List.elem_iff.mpr (hall tok htok)
  · have hnil : tokensOf q = [] := List.length_eq_zero.mp (by omega)
    simp [hnil]
  · have hnil : tokensOf q = [] := by
      rcases not_and_or.mp hg with h1 | h1
      · have hq : q = [] := not_not.mp h1
        subst hq
        rfl
      · have htrim : jsTrim q = [] := List.length_eq_zero.mp (by omega)
        exact tokensOf_eq_nil_of_ws (jsTrim_nil_all_ws htrim)
    simp [hnil]

lemma tagPass_congr {q1 q2 : Str} (h : (tokensOf q1).Perm (tokensOf q2))
    (r : HazardReport) : tagPass q1 r = tagPass q2 r := by
  by_cases hb : tagPass q1 r = true
  · rw [hb]
    symm
    rw [tagPass_iff]
    intro tok htok
    exact (tagPass_iff q1 r).mp hb tok (h.mem_iff.mpr htok)
  · have hb2 : ¬ tagPass q2 r = true := by
      intro hc
      exact hb ((tagPass_iff q1 r).mpr
        (fun tok htok => (tagPass_iff q2 r).mp hc tok (h.mem_iff.mp htok)))
    rw [Bool.not_eq_true] at hb hb2
    rw [hb, hb2]

lemma reportMatches_tagsQuery_congr (f : ActiveFilters) (q1 q2 : Str)
    (tl : Option Int) (r : HazardReport) (h : tagPass q1 r = tagPass q2 r) :
    reportMatches { f with tagsQuery := q1 } tl r
      = reportMatches { f with tagsQuery := q2 } tl r := by
  simp only [reportMatches]
  rw [h]

/-- Claim C8: the tag filter admits exactly the reports whose lowercased tag
set contains every token of the tokenized query (split on commas and
whitespace, lowercased, empty tokens dropped); the evaluator output is
invariant under permuting the query tokens; and a report without tags is
rejected whenever the token list is non-empty. -/
theorem c8_tag_filter (q1 q2 q0 : Str) (f : ActiveFilters) (tl : Option Int)
    (rs : List HazardReport) (r0 : HazardReport)
    (hperm : (tokensOf q1).Perm (tokensOf q2))
    (htags : r0.tags = none) (hne : tokensOf q0 ≠ []) :
    (∀ q r, tagPass q r = true ↔ ∀ tok ∈ tokensOf q, tok ∈ lowerTags r)
    ∧ filteredReports { f with tagsQuery := q1 } tl rs
        = filteredReports { f with tagsQuery := q2 } tl rs
    ∧ tagPass q0 r0 = false := by
  refine ⟨tagPass_iff, ?_, ?_⟩
  · unfold filteredReports
    apply List.filter_congr
    intro r hr
    exact reportMatches_tagsQuery_congr f q1 q2 tl r (tagPass_congr hperm r)
  · rcases hx : tokensOf q0 with _ | ⟨tok, toks⟩
    · exact absurd hx hne
    · have hlt : lowerTags r0 = [] := by simp [lowerTags, htags]
      by_contra hb
      rw [Bool.not_eq_false] at hb
      have := (tagPass_iff q0 r0).mp hb tok (by rw [hx]; exact List.mem_cons_self tok toks)
      rw [hlt] at this
      exact absurd this (List.not_mem_nil tok)

theorem c8_tag_filter_witness :
    filteredReports { fTag with tagsQuery := ("flood, coast").toList } none [rTagged, rNoTs]
      = filteredReports { fTag with tagsQuery := ("coast flood").toList } none [rTagged, rNoTs]
    ∧ tagPass ("flood").toList rNoTs = false :=
  ⟨(c8_tag_filter ("flood, coast").toList ("coast flood").toList ("flood").toList
      fTag none [rTagged, rNoTs] rNoTs (by decide) rfl (by decide)).2.1,
   (c8_tag_filter ("flood, coast").toList ("coast flood").toList ("flood").toList
      fTag none [rTagged, rNoTs] rNoTs (by decide) rfl (by decide)).2.2⟩

theorem c6_dominant_status_witness :
    statusCount itemsC6 .verified ≤ statusCount itemsC6 (dominantStatusIn itemsC6)
    ∧ dominantStatusIn itemsC6 = HazardStatus.under_review :=
  ⟨(c6_dominant_status itemsC6 (by decide)).1 .verified, rfl⟩

lemma clusterInsert_sum (k : Int × Int) (c : ℚ × ℚ) (r : HazardReport) :
    ∀ m : List ((Int × Int) × ClusterBucket),
      ((clusterInsert k c r m).map (fun p => p.2.items.length)).sum
        = ((m.map (fun p => p.2.items.length)).sum) + 1 := by
  intro m
  induction m with
  | nil => simp [clusterInsert]
  | cons hd t ih =>
    obtain ⟨k2, b⟩ := hd
    by_cases hk : k2 = k
    · simp [clusterInsert, hk]
      omega
    · simp [clusterInsert, hk, ih]
      omega

lemma clusterInsert_keys (k : Int × Int) (c : ℚ × ℚ) (r : HazardReport) :
    ∀ m : List ((Int × Int) × ClusterBucket),
      (clusterInsert k c r m).map Prod.fst
        = if k ∈ m.map Prod.fst then m.map Prod.fst else m.map Prod.fst ++ [k] := by
  intro m
  induction m with
  | nil => simp [clusterInsert]
  | cons hd t ih =>
    obtain ⟨k2, b⟩ := hd
    by_cases hk : k2 = k
    · subst hk
      simp [clusterInsert]
    · rw [List.map_cons]
      by_cases hmem : k ∈ t.map Prod.fst
      · simp [clusterInsert, hk, ih, hmem, Ne.symm hk]
      · simp [clusterInsert, hk, ih, hmem, Ne.symm hk]

lemma clusterInsert_nodup (k : Int × Int) (c : ℚ × ℚ) (r : HazardReport)
    (m : List ((Int × Int) × ClusterBucket)) (h : (m.map Prod.fst).Nodup) :
    ((clusterInsert k c r m).map Prod.fst).Nodup := by
  rw [clusterInsert_keys]
  by_cases hmem : k ∈ m.map Prod.fst
  · rw [if_pos hmem]
    exact h
  · rw [if_neg hmem]
    simp [List.nodup_append, h, hmem]

lemma clusterInsert_keysOK (r : HazardReport) (c : ℚ × ℚ)
    (m : List ((Int × Int) × ClusterBucket))
    (h : ∀ p ∈ m, ∀ r2 ∈ p.2.items, clusterKey r2 = p.1) :
    ∀ p ∈ clusterInsert (clusterKey r) c r m, ∀ r2 ∈ p.2.items, clusterKey r2 = p.1 := by
  induction m with
  | nil =>
    intro p hp r2 hr2
    simp only [clusterInsert, List.mem_singleton] at hp
    subst hp
    simp only [List.mem_singleton] at hr2
    subst hr2
    rfl
  | cons hd t ih =>
    obtain ⟨k2, b⟩ := hd
    intro p hp r2 hr2
    by_cases hk : k2 = clusterKey r
    · rw [clusterInsert, if_pos hk] at hp
      rcases List.mem_cons.mp hp with hp | hp
      · subst hp
        simp only [List.mem_append, List.mem_singleton] at hr2
        rcases hr2 with hr2 | hr2
        · exact h (k2, b) (List.mem_cons_self _ _) r2 hr2
        · subst hr2
          exact hk.symm
      · exact h p (List.mem_cons_of_mem _ hp) r2 hr2
    · rw [clusterInsert, if_neg hk] at hp
      rcases List.mem_cons.mp hp with hp | hp
      · subst hp
        exact h (k2, b) (List.mem_cons_self _ _) r2 hr2
      · exact ih (fun p2 hp2 => h p2 (List.mem_cons_of_mem _ hp2)) p hp r2 hr2

lemma clusterInsert_preserves (k : Int × Int) (c : ℚ × ℚ) (r : HazardReport)
    (k0 : Int × Int) (r0 : HazardReport) :
    ∀ m : List ((Int × Int) × ClusterBucket),
      (∃ b, (k0, b) ∈ m ∧ r0 ∈ b.items) →
      ∃ b, (k0, b) ∈ clusterInsert k c r m ∧ r0 ∈ b.items := by
  intro m
  induction m with
  | nil =>
    rintro ⟨b, hb, _⟩
    exact absurd hb (List.not_mem_nil _)
  | cons hd t ih =>
    obtain ⟨k2, b2⟩ := hd
    rintro ⟨b, hb, hr0⟩
    by_cases hk : k2 = k
    · rcases List.mem_cons.mp hb with hb | hb
      · have hk0 : k0 = k2 := congrArg Prod.fst hb
        have hbb : b = b2 := congrArg Prod.snd hb
        subst hk0
        refine ⟨{ b2 with items := b2.items ++ [r] }, ?_, ?_⟩
        · rw [clusterInsert, if_pos hk]
          exact List.mem_cons_self _ _
        · rw [hbb] at hr0
          simp [hr0]
      · refine ⟨b, ?_, hr0⟩
        rw [clusterInsert, if_pos hk]
        exact List.mem_cons_of_mem _ hb
    · rcases List.mem_cons.mp hb with hb | hb
      · refine ⟨b, ?_, hr0⟩
        rw [clusterInsert, if_neg hk]
        exact hb ▸ List.mem_cons_self _ _
      · obtain ⟨b3, hb3, hr3⟩ := ih ⟨b, hb, hr0⟩
        refine ⟨b3, ?_, hr3⟩
        rw [clusterInsert, if_neg hk]
        exact List.mem_cons_of_mem _ hb3

lemma clusterInsert_self (k : Int × Int) (c : ℚ × ℚ) (r : HazardReport) :
    ∀ m : List ((Int × Int) × ClusterBucket),
      ∃ b, (k, b) ∈ clusterInsert k c r m ∧ r ∈ b.items := by
  intro m
  induction m with
  | nil =>
    refine ⟨⟨c.2, c.1, [r]⟩, ?_, ?_⟩
    · simp [clusterInsert]
    · simp
  | cons hd t ih =>
    obtain ⟨k2, b2⟩ := hd
    by_cases hk : k2 = k
    · subst hk
      refine ⟨{ b2 with items := b2.items ++ [r] }, ?_, ?_⟩
      · rw [clusterInsert, if_pos rfl]
        exact List.mem_cons_self _ _
      · simp
    · obtain ⟨b3, hb3, hr3⟩ := ih
      refine ⟨b3, ?_, hr3⟩
      rw [clusterInsert, if_neg hk]
      exact List.mem_cons_of_mem _ hb3

lemma nodup_keys_entry_eq {m : List ((Int × Int) × ClusterBucket)}
    (h : (m.map Prod.fst).Nodup) {k : Int × Int} {b1 b2 : ClusterBucket}
    (h1 : (k, b1) ∈ m) (h2 : (k, b2) ∈ m) : b1 = b2 := by
  induction m with
  | nil => exact absurd h1 (List.not_mem_nil _)
  | cons hd t ih =>
    obtain ⟨k2, b⟩ := hd
    rw [List.map_cons, List.nodup_cons] at h
    rcases List.mem_cons.mp h1 with he1 | he1 <;>
      rcases List.mem_cons.mp h2 with he2 | he2
    · have hb1 : b1 = b := congrArg Prod.snd he1
      have hb2 : b2 = b := congrArg Prod.snd he2
      rw [hb1, hb2]
    · have hk : k = k2 := congrArg Prod.fst he1
      subst hk
      exact absurd (List.mem_map_of_mem Prod.fst he2) h.1
    · have hk : k = k2 := congrArg Prod.fst he2
      subst hk
      exact absurd (List.mem_map_of_mem Prod.fst he1) h.1
    · exact ih h.2 he1 he2

lemma clusterBuckets_inv (rs : List HazardReport) :
    ∀ m : List ((Int × Int) × ClusterBucket),
      (((rs.foldl (fun m2 r => clusterInsert (clusterKey r)
            (cellCenter (clusterKey r) clusterGridSize) r m2) m).map
          (fun p => p.2.items.length)).sum
        = (m.map (fun p => p.2.items.length)).sum + rs.length)
      ∧ ((∀ p ∈ m, ∀ r2 ∈ p.2.items, clusterKey r2 = p.1) →
          ∀ p ∈ rs.foldl (fun m2 r => clusterInsert (clusterKey r)
            (cellCenter (clusterKey r) clusterGridSize) r m2) m,
            ∀ r2 ∈ p.2.items, clusterKey r2 = p.1)
      ∧ ((m.map Prod.fst).Nodup →
          ((rs.foldl (fun m2 r => clusterInsert (clusterKey r)
            (cellCenter (clusterKey r) clusterGridSize) r m2) m).map Prod.fst).Nodup)
      ∧ (∀ k0 r0, (∃ b, (k0, b) ∈ m ∧ r0 ∈ b.items) →
          ∃ b, (k0, b) ∈ rs.foldl (fun m2 r => clusterInsert (clusterKey r)
            (cellCenter (clusterKey r) clusterGridSize) r m2) m ∧ r0 ∈ b.items)
      ∧ (∀ r ∈ rs, ∃ b, (clusterKey r, b) ∈ rs.foldl (fun m2 r2 => clusterInsert (clusterKey r2)
            (cellCenter (clusterKey r2) clusterGridSize) r2 m2) m ∧ r ∈ b.items) := by
  induction rs with
  | nil =>
    intro m
    refine ⟨by simp, ?_, ?_, ?_, by simp⟩
    · intro h p hp
      exact h p hp
    · intro h
      exact h
    · intro k0 r0 h
      exact h
  | cons r rs ih =>
    intro m
    obtain ⟨ihsum, ihkeys, ihnodup, ihpres, ihmem⟩ :=
      ih (clusterInsert (clusterKey r) (cellCenter (clusterKey r) clusterGridSize) r m)
    refine ⟨?_, ?_, ?_, ?_, ?_⟩
    · simp only [List.foldl_cons]
      rw [ihsum, clusterInsert_sum]
      simp
      omega
    · intro h
      simp only [List.foldl_cons]
      exact ihkeys (clusterInsert_keysOK r _ m h)
    · intro h
      simp only [List.foldl_cons]
      exact ihnodup (clusterInsert_nodup _ _ _ m h)
    · intro k0 r0 h
      simp only [List.foldl_cons]
      exact ihpres k0 r0 (clusterInsert_preserves _ _ _ k0 r0 m h)
    · intro r2 hr2
      simp only [List.foldl_cons]
      rcases List.mem_cons.mp hr2 with hr2 | hr2
      · subst hr2
        exact ihpres (clusterKey r2) r2 (clusterInsert_self _ _ _ m)
      · exact ihmem r2 hr2

/-- Claim C5: the cluster-variant bucketing is a partition of the filtered
sequence: the membership list sizes sum to the report count, cell keys are
pairwise distinct, every member of a cell has that cell as its key, every
report lands in the cell of its own key, a report is in at most one cell,
and the marker counts (1 per individual marker, member count per cluster
badge) sum to the filtered report count. -/
theorem c5_cluster_partition (rs : List HazardReport) :
    ((clusterBuckets rs).map (fun p => p.2.items.length)).sum = rs.length
    ∧ ((clusterBuckets rs).map Prod.fst).Nodup
    ∧ (∀ p ∈ clusterBuckets rs, ∀ r ∈ p.2.items, clusterKey r = p.1)
    ∧ (∀ r ∈ rs, ∃ b, (clusterKey r, b) ∈ clusterBuckets rs ∧ r ∈ b.items)
    ∧ (∀ p1 ∈ clusterBuckets rs, ∀ p2 ∈ clusterBuckets rs, ∀ r : HazardReport,
        r ∈ p1.2.items → r ∈ p2.2.items → p1 = p2)
    ∧ ((clusterBuckets rs).map (fun p => markerCount p.2)).sum = rs.length := by
  obtain ⟨hsum, hkeys, hnodup, _, hmem⟩ := clusterBuckets_inv rs []
  have hkeys2 := hkeys (by simp)
  have hnodup2 := hnodup (by simp)
  have hsum2 : ((clusterBuckets rs).map (fun p => p.2.items.length)).sum = rs.length := by
    rw [clusterBuckets, hsum]
    simp
  refine ⟨hsum2, hnodup2, hkeys2, hmem, ?_, ?_⟩
  · intro p1 hp1 p2 hp2 r hr1 hr2
    obtain ⟨k1, b1⟩ := p1
    obtain ⟨k2, b2⟩ := p2
    have e1 : clusterKey r = k1 := hkeys2 (k1, b1) hp1 r hr1
    have e2 : clusterKey r = k2 := hkeys2 (k2, b2) hp2 r hr2
    have ek : k1 = k2 := e1 ▸ e2
    subst ek
    have eb : b1 = b2 := nodup_keys_entry_eq hnodup2 hp1 hp2
    rw [eb]
  · rw [← hsum2]
    apply congrArg
    apply List.map_congr_left
    intro p _
    unfold markerCount
    split_ifs with h1
    · omega
    · rfl

lemma heatInsert_keys (k : Int × Int) (c : ℚ × ℚ) :
    ∀ m : List ((Int × Int) × HeatBucket),
      (heatInsert k c m).map Prod.fst
        = if k ∈ m.map Prod.fst then m.map Prod.fst else m.map Prod.fst ++ [k] := by
  intro m
  induction m with
  | nil => simp [heatInsert]
  | cons hd t ih =>
    obtain ⟨k2, b⟩ := hd
    by_cases hk : k2 = k
    · subst hk
      simp [heatInsert]
    · rw [List.map_cons]
      by_cases hmem : k ∈ t.map Prod.fst
      · simp [heatInsert, hk, ih, hmem, Ne.symm hk]
      · simp [heatInsert, hk, ih, hmem, Ne.symm hk]

lemma heatInsert_nodup (k : Int × Int) (c : ℚ × ℚ)
    (m : List ((Int × Int) × HeatBucket)) (h : (m.map Prod.fst).Nodup) :
    ((heatInsert k c m).map Prod.fst).Nodup := by
  rw [heatInsert_keys]
  by_cases hmem : k ∈ m.map Prod.fst
  · rw [if_pos hmem]
    exact h
  · rw [if_neg hmem]
    simp [List.nodup_append, h, hmem]

lemma heatInsert_not_mem {k : Int × Int} (c : ℚ × ℚ)
    {m : List ((Int × Int) × HeatBucket)} (h : ¬ k ∈ m.map Prod.fst) :
    heatInsert k c m = m ++ [(k, ⟨c.2, c.1, 1⟩)] := by
  induction m with
  | nil => simp [heatInsert]
  | cons hd t ih =>
    obtain ⟨k2, b⟩ := hd
    rw [List.map_cons, List.mem_cons] at h
    have hk : k2 ≠ k := fun he => h (Or.inl he.symm)
    rw [heatInsert, if_neg hk, ih (fun hm => h (Or.inr hm))]
    rfl

lemma heatInsert_mem_cases {k : Int × Int} {c : ℚ × ℚ}
    {m : List ((Int × Int) × HeatBucket)} {p : (Int × Int) × HeatBucket}
    (hnd : (m.map Prod.fst).Nodup) (hk : k ∈ m.map Prod.fst)
    (hp : p ∈ heatInsert k c m) :
    (p ∈ m ∧ p.1 ≠ k)
    ∨ (∃ b0, (k, b0) ∈ m ∧ p = (k, { b0 with count := b0.count + 1 })) := by
  induction m with
  | nil => exact absurd hk (List.not_mem_nil k)
  | cons hd t ih =>
    obtain ⟨k2, b⟩ := hd
    rw [List.map_cons, List.nodup_cons] at hnd
    by_cases hk2 : k2 = k
    · subst hk2
      rw [heatInsert, if_pos rfl] at hp
      rcases List.mem_cons.mp hp with hp | hp
      · exact Or.inr ⟨b, List.mem_cons_self _ _, hp⟩
      · refine Or.inl ⟨List.mem_cons_of_mem _ hp, ?_⟩
        intro he
        have hmm : p.1 ∈ t.map Prod.fst := List.mem_map_of_mem Prod.fst hp
        rw [he] at hmm
        exact hnd.1 hmm
    · rw [heatInsert, if_neg hk2] at hp
      have hkt : k ∈ t.map Prod.fst := by
        rcases List.mem_cons.mp hk with hk | hk
        · exact absurd hk.symm hk2
        · exact hk
      rcases List.mem_cons.mp hp with hp | hp
      · subst hp
        exact Or.inl ⟨List.mem_cons_self _ _, fun he => hk2 he⟩
      · rcases ih hnd.2 hkt hp with ⟨hpm, hne⟩ | ⟨b0, hb0, he⟩
        · exact Or.inl ⟨List.mem_cons_of_mem _ hpm, hne⟩
        · exact Or.inr ⟨b0, List.mem_cons_of_mem _ hb0, he⟩

lemma heatBuckets_concat (rs : List HazardReport) (r : HazardReport) :
    heatBuckets (rs ++ [r])
      = heatInsert (heatKey r) (cellCenter (heatKey r) heatGridSize) (heatBuckets rs) := by
  simp [heatBuckets, List.foldl_append]

lemma keyCount_append (rs : List HazardReport) (r : HazardReport) (k : Int × Int) :
    keyCount (rs ++ [r]) k
      = keyCount rs k + (if heatKey r = k then 1 else 0) := by
  simp only [keyCount, List.filter_append, List.length_append]
  split_ifs with h
  · simp [h]
  · simp [h]

lemma keyCount_pos {rs : List HazardReport} {k : Int × Int} {r : HazardReport}
    (hr : r ∈ rs) (hk : heatKey r = k) : 1 ≤ keyCount rs k := by
  have : r ∈ rs.filter (fun r2 => decide (heatKey r2 = k)) :=
    List.mem_filter.mpr ⟨hr, by simp [hk]⟩
  have hlen := List.length_pos.mpr (List.ne_nil_of_mem this)
  unfold keyCount
  omega

lemma keyCount_zero {rs : List HazardReport} {k : Int × Int}
    (h : ∀ r ∈ rs, heatKey r ≠ k) : keyCount rs k = 0 := by
  unfold keyCount
  rw [List.length_eq_zero, List.filter_eq_nil_iff]
  intro r hr
  simp [h r hr]

lemma heatBuckets_spec (rs : List HazardReport) :
    ((heatBuckets rs).map Prod.fst).Nodup
    ∧ (∀ p ∈ heatBuckets rs, p.2.count = keyCount rs p.1
        ∧ p.2.lng = ((p.1.1 : ℚ) + 0.5) * heatGridSize
        ∧ p.2.lat = ((p.1.2 : ℚ) + 0.5) * heatGridSize)
    ∧ (∀ k, k ∈ (heatBuckets rs).map Prod.fst ↔ ∃ r ∈ rs, heatKey r = k) := by
  induction rs using List.reverseRecOn with
  | nil => simp [heatBuckets]
  | append_singleton rs r ih =>
    obtain ⟨ihnd, ihcnt, ihcov⟩ := ih
    rw [heatBuckets_concat]
    refine ⟨heatInsert_nodup _ _ _ ihnd, ?_, ?_⟩
    · intro p hp
      by_cases hk : heatKey r ∈ (heatBuckets rs).map Prod.fst
      · rcases heatInsert_mem_cases ihnd hk hp with ⟨hpm, hne⟩ | ⟨b0, hb0, he⟩
        · obtain ⟨hc, hlng, hlat⟩ := ihcnt p hpm
          refine ⟨?_, hlng, hlat⟩
          rw [keyCount_append, if_neg (fun he => hne he.symm)]
          omega
        · subst he
          obtain ⟨hc, hlng, hlat⟩ := ihcnt (heatKey r, b0) hb0
          refine ⟨?_, hlng, hlat⟩
          simp only at hc ⊢
          rw [keyCount_append, if_pos rfl]
          omega
      · rw [heatInsert_not_mem _ hk] at hp
        rcases List.mem_append.mp hp with hp | hp
        · obtain ⟨hc, hlng, hlat⟩ := ihcnt p hp
          have hne : p.1 ≠ heatKey r := by
            intro he
            exact hk (he ▸ List.mem_map_of_mem Prod.fst hp)
          refine ⟨?_, hlng, hlat⟩
          rw [keyCount_append, if_neg (fun he => hne he.symm)]
          omega
        · rw [List.mem_singleton] at hp
          subst hp
          have hz : keyCount rs (heatKey r) = 0 := by
            apply keyCount_zero
            intro r2 hr2 he
            exact hk ((ihcov (heatKey r)).mpr ⟨r2, hr2, he⟩)
          refine ⟨?_, ?_, ?_⟩
          · simp only
            rw [keyCount_append, if_pos rfl, hz]
          · rfl
          · rfl
    · intro k
      rw [heatInsert_keys]
      constructor
      · intro hmem
        by_cases hk : heatKey r ∈ (heatBuckets rs).map Prod.fst
        · rw [if_pos hk] at hmem
          obtain ⟨r2, hr2, he⟩ := (ihcov k).mp hmem
          exact ⟨r2, List.mem_append_left _ hr2, he⟩
        · rw [if_neg hk] at hmem
          rcases List.mem_append.mp hmem with hmem | hmem
          · obtain ⟨r2, hr2, he⟩ := (ihcov k).mp hmem
            exact ⟨r2, List.mem_append_left _ hr2, he⟩
          · rw [List.mem_singleton] at hmem
            exact ⟨r, List.mem_append_right _ (List.mem_singleton_self r), hmem.symm⟩
      · rintro ⟨r2, hr2, he⟩
        rcases List.mem_append.mp hr2 with hr2 | hr2
        · have hmem := (ihcov k).mpr ⟨r2, hr2, he⟩
          split_ifs
          · exact hmem
          · exact List.mem_append_left _ hmem
        · rw [List.mem_singleton] at hr2
          subst hr2
          subst he
          split_ifs with hk
          · exact hk
          · exact List.mem_append_right _ (List.mem_singleton_self _)

lemma foldl_max_ge (bs : List ((Int × Int) × HeatBucket)) :
    ∀ a : Nat, a ≤ bs.foldl (fun m2 kb => max m2 kb.2.count) a := by
  induction bs with
  | nil => intro a; simp
  | cons hd t ih =>
    intro a
    simp only [List.foldl_cons]
    exact le_trans (le_max_left a hd.2.count) (ih _)

lemma foldl_max_mem (bs : List ((Int × Int) × HeatBucket)) :
    ∀ a : Nat, ∀ p ∈ bs, p.2.count ≤ bs.foldl (fun m2 kb => max m2 kb.2.count) a := by
  induction bs with
  | nil =>
    intro a p hp
    exact absurd hp (List.not_mem_nil p)
  | cons hd t ih =>
    intro a p hp
    simp only [List.foldl_cons]
    rcases List.mem_cons.mp hp with hp | hp
    · subst hp
      exact le_trans (le_max_right a p.2.count) (foldl_max_ge t _)
    · exact ih _ p hp

lemma foldl_max_attained (bs : List ((Int × Int) × HeatBucket)) :
    ∀ a : Nat, bs.foldl (fun m2 kb => max m2 kb.2.count) a = a
      ∨ ∃ p ∈ bs, bs.foldl (fun m2 kb => max m2 kb.2.count) a = p.2.count := by
  induction bs with
  | nil => intro a; exact Or.inl rfl
  | cons hd t ih =>
    intro a
    simp only [List.foldl_cons]
    rcases ih (max a hd.2.count) with he | ⟨p, hp, he⟩
    · rcases max_choice a hd.2.count with hm | hm
      · exact Or.inl (he.trans hm)
      · exact Or.inr ⟨hd, List.mem_cons_self _ _, he.trans hm⟩
    · exact Or.inr ⟨p, List.mem_cons_of_mem _ hp, he⟩

/-- Claim C7: with the heatmap toggle off, or an empty filtered sequence, no
heat point is emitted; otherwise the engine emits exactly one point per
non-empty 0.25-degree cell, located at the cell center, whose weight is the
cell count divided by the maximal cell count, so every weight is strictly
positive, no weight exceeds 1, and the maximum weight 1 is attained. -/
theorem c7_heat_normalization (hm : Bool) (rs : List HazardReport) (hne : rs ≠ []) :
    heatPoints false rs = []
    ∧ heatPoints hm [] = []
    ∧ (∀ p ∈ heatPoints true rs, 0 < p.weight ∧ p.weight ≤ 1)
    ∧ (∃ p ∈ heatPoints true rs, p.weight = 1)
    ∧ (heatPoints true rs).length = (heatBuckets rs).length
    ∧ ((heatBuckets rs).map Prod.fst).Nodup
    ∧ (∀ k, k ∈ (heatBuckets rs).map Prod.fst ↔ ∃ r ∈ rs, heatKey r = k)
    ∧ (∀ p ∈ heatBuckets rs, p.2.count = keyCount rs p.1
        ∧ p.2.lng = ((p.1.1 : ℚ) + 0.5) * heatGridSize
        ∧ p.2.lat = ((p.1.2 : ℚ) + 0.5) * heatGridSize)
    ∧ heatPoints true rs = (heatBuckets rs).map
        (fun p => ⟨p.2.lat, p.2.lng,
          (p.2.count : ℚ) / (maxBucketCount (heatBuckets rs) : ℚ)⟩) := by
  obtain ⟨hnd, hcnt, hcov⟩ := heatBuckets_spec rs
  obtain ⟨r0, hr0⟩ := List.exists_mem_of_ne_nil rs hne
  have hbne : heatBuckets rs ≠ [] := by
    have hk0 : heatKey r0 ∈ (heatBuckets rs).map Prod.fst :=
      (hcov (heatKey r0)).mpr ⟨r0, hr0, rfl⟩
    intro hb
    rw [hb] at hk0
    exact absurd hk0 (List.not_mem_nil _)
  have hcnt1 : ∀ p ∈ heatBuckets rs, 1 ≤ p.2.count := by
    intro p hp
    obtain ⟨r2, hr2, he⟩ := (hcov p.1).mp (List.mem_map_of_mem Prod.fst hp)
    rw [(hcnt p hp).1]
    exact keyCount_pos hr2 he
  have hmax1 : 1 ≤ maxBucketCount (heatBuckets rs) := by
    obtain ⟨p0, hp0⟩ := List.exists_mem_of_ne_nil (heatBuckets rs) hbne
    exact le_trans (hcnt1 p0 hp0) (foldl_max_mem _ 0 p0 hp0)
  have hmaxne : maxBucketCount (heatBuckets rs) ≠ 0 := by omega
  have hpts : heatPoints true rs = (heatBuckets rs).map
      (fun p => ⟨p.2.lat, p.2.lng,
        (p.2.count : ℚ) / (maxBucketCount (heatBuckets rs) : ℚ)⟩) := by
    unfold heatPoints
    rw [if_neg (by simp), if_neg hmaxne]
  have hmaxQ : (0 : ℚ) < (maxBucketCount (heatBuckets rs) : ℚ) := by
    exact_mod_cast Nat.pos_of_ne_zero hmaxne
  refine ⟨rfl, by cases hm <;> rfl, ?_, ?_, ?_, hnd, hcov, hcnt, hpts⟩
  · intro p hp
    rw [hpts] at hp
    obtain ⟨q, hq, rfl⟩ := List.mem_map.mp hp
    constructor
    · apply div_pos _ hmaxQ
      exact_mod_cast Nat.lt_of_lt_of_le Nat.zero_lt_one (hcnt1 q hq)
    · rw [div_le_one hmaxQ]
      exact_mod_cast foldl_max_mem _ 0 q hq
  · rcases foldl_max_attained (heatBuckets rs) 0 with he | ⟨p, hp, he⟩
    · exact absurd he.symm (by unfold maxBucketCount at hmaxne; omega)
    · refine ⟨⟨p.2.lat, p.2.lng,
        (p.2.count : ℚ) / (maxBucketCount (heatBuckets rs) : ℚ)⟩, ?_, ?_⟩
      · rw [hpts]
        exact List.mem_map_of_mem _ hp
      · have hc : (p.2.count : ℚ) = (maxBucketCount (heatBuckets rs) : ℚ) := by
          exact_mod_cast congrArg Nat.cast he.symm
        rw [hc]
        exact div_self (ne_of_gt hmaxQ)
  · rw [hpts, List.length_map]

theorem c7_heat_normalization_witness :
    (heatPoints true [rT5]).length = (heatBuckets [rT5]).length :=
  (c7_heat_normalization true [rT5] (by decide)).2.2.2.2.1

lemma csvFields_ok (r : HazardReport) (t : Int) (h : r.timestamp = some t) :
    csvFields r = Except.ok [r.id, safe r.title, r.type, statusStr r.status,
      sourceStr r.source, isoStr t, ratStr r.lat, ratStr r.lng,
      safe r.locationName, safe r.personName, pipeJoin (r.tags.getD []),
      safe r.description] := by
  unfold csvFields toISOStringE
  rw [h]

lemma csvFields_eq_rowOf (r : HazardReport) (h : r.timestamp.isSome) :
    csvFields r = Except.ok (csvRowOf r) := by
  obtain ⟨tv, htv⟩ := Option.isSome_iff_exists.mp h
  rw [csvFields_ok r tv htv]
  unfold csvRowOf
  rw [htv]
  rfl

lemma csvRows_eq_map (rs : List HazardReport) (h : ∀ r ∈ rs, r.timestamp.isSome) :
    csvRows rs = Except.ok (rs.map csvRowOf) := by
  induction rs with
  | nil => rfl
  | cons r t ih =>
    rw [List.map_cons, csvRows, csvFields_eq_rowOf r (h r (List.mem_cons_self r t)),
      ih (fun r2 hr2 => h r2 (List.mem_cons_of_mem r hr2))]

/-- Claim C9, counterexample: the export does NOT always emit one row per
filtered report.  A report with an unparseable timestamp passes the
evaluator (its NaN comparisons are all false), yet exporting the resulting
one-element filtered sequence throws in toISOString and emits no rows. -/
theorem c9_one_row_per_report_cex :
    filteredReports fTag none [rNoTs] = [rNoTs]
    ∧ exportCSV [rNoTs] = Except.error () :=
  ⟨rfl, rfl⟩

/-- Claim C9 (amended): for a filtered sequence in which every timestamp
parses, the CSV export succeeds and emits exactly one row per filtered
report, in input order; each row carries the twelve cells id, title, type,
status, source, timestamp, lat, lng, locationName, personName, pipe-joined
tags, description in that order, each cell escaped by csvEscape; cells
containing a comma, newline or double quote are quoted with internal quotes
doubled, and the concrete description He said "flood now" escapes to the
RFC-4180 form.  When a filtered report's timestamp does not parse, the
export instead throws (the defect recorded at claim C2). -/
theorem c9_csv_format (rs : List HazardReport)
    (h : ∀ r ∈ rs, r.timestamp.isSome) :
    csvRows rs = Except.ok (rs.map csvRowOf)
    ∧ (rs.map csvRowOf).length = rs.length
    ∧ exportCSV rs = Except.ok (joinNl (joinComma csvHeaders
        :: rs.map (fun r => joinComma ((csvRowOf r).map csvEscape))))
    ∧ csvEscape ("He said \"flood now\"").toList
        = ("\"He said \"\"flood now\"\"\"").toList := by
  have hrows := csvRows_eq_map rs h
  refine ⟨hrows, List.length_map rs csvRowOf, ?_, by decide⟩
  unfold exportCSV
  rw [hrows]
  simp only [List.map_map]
  rfl

theorem c9_csv_format_witness :
    exportCSV [rCsv] = Except.ok (joinNl (joinComma csvHeaders
      :: [rCsv].map (fun r => joinComma ((csvRowOf r).map csvEscape)))) :=
  (c9_csv_format [rCsv] (by decide)).2.2.1

end OceanMap
